import Mathlib

/-!
Shallow embedding of the repository's two python modules and proofs about them.

Part 1 embeds `src/python/natural/model.py`: the random-multiplication example
generator (binary rendering, space padding, vocabulary checks).

Part 2 embeds `src/core/linear_classifier.py`: the `Dataset` batch partitioner,
the softmax linear classifier (logits, probabilities, negative log likelihood,
error rate), the gradient-descent training step, and the shape of the driver
loop in `__main__`.

All definitions are translated from the source; floating point arithmetic is
modelled over the reals, and the gradients that theano's `T.grad` computes
symbolically are modelled as mathematical derivatives (`deriv`).
-/

namespace NaturalModel

/-- MIN_NUMBER from model.py. -/
def MIN_NUMBER : Nat := 1

/-- MAX_NUMBER from model.py. -/
def MAX_NUMBER : Nat := 127

/-- Binary rendering of a natural number, as python's format specifier b produces:
most significant bit first, no leading zeros, and the single digit 0 for zero.
The first argument is fuel bounding the recursion depth; `binDigits` supplies
`n + 1`, which always exceeds the number of binary digits of `n`. -/
def binDigitsFuel : Nat → Nat → List Char
  | 0, _ => []
  | fuel + 1, n =>
    if n < 2 then [if n = 1 then '1' else '0']
    else binDigitsFuel fuel (n / 2) ++ [if n % 2 = 1 then '1' else '0']

/-- The binary rendering of `n`, i.e. the character list of python's
`format(n, b)`. -/
def binDigits (n : Nat) : List Char := binDigitsFuel (n + 1) n

/-- SOURCE_VOCAB = "10* " from model.py, as a list of characters. -/
def SOURCE_VOCAB : List Char := ['1', '0', '*', ' ']

/-- TARGET_VOCAB = "10 " from model.py, as a list of characters. -/
def TARGET_VOCAB : List Char := ['1', '0', ' ']

/-- SOURCE_LEN = 1 + 2 * len(binary(MAX_NUMBER)) from model.py. -/
def SOURCE_LEN : Nat := 1 + 2 * (binDigits MAX_NUMBER).length

/-- TARGET_LEN = len(binary(MAX_NUMBER * MAX_NUMBER)) from model.py. -/
def TARGET_LEN : Nat := (binDigits (MAX_NUMBER * MAX_NUMBER)).length

/-- The while loop of source_pad and target_pad: while len(s) <= bound: s += ' '.
The first argument is fuel bounding the number of loop iterations; `pad`
supplies `bound + 1`, which always suffices because each iteration grows the
string by one character. -/
def padFuel : Nat → Nat → List Char → List Char
  | 0, _, s => s
  | fuel + 1, bound, s =>
    if s.length ≤ bound then padFuel fuel bound (s ++ [' ']) else s

/-- The padding loop with enough fuel to run to completion on every input. -/
def pad (bound : Nat) (s : List Char) : List Char := padFuel (bound + 1) bound s

/-- source_pad from model.py. -/
def source_pad (s : List Char) : List Char := pad SOURCE_LEN s

/-- target_pad from model.py. -/
def target_pad (s : List Char) : List Char := pad TARGET_LEN s

/-- The source string built inside generate() before padding.  The python format
string there indexes its first argument in both placeholders, so the second
drawn operand `b` is never rendered: the result is binary(a), then the star,
then binary(a) again. -/
def sourceRaw (a b : Nat) : List Char := binDigits a ++ '*' :: binDigits a

/-- The target string built inside generate() before padding: binary(a * b). -/
def targetRaw (a b : Nat) : List Char := binDigits (a * b)

/-- generate() from model.py as a function of the two random draws `a` and `b`
(number() draws each uniformly from [MIN_NUMBER, MAX_NUMBER]).  The four assert
statements are modelled as early error returns, checked in source order. -/
def generate (a b : Nat) : Except String (List Char × List Char) :=
  let source := source_pad (sourceRaw a b)
  let target := target_pad (targetRaw a b)
  if source.all fun ch => SOURCE_VOCAB.contains ch then
    if target.all fun ch => TARGET_VOCAB.contains ch then
      if source.length = SOURCE_LEN then
        if target.length = TARGET_LEN then .ok (source, target)
        else .error "AssertionError: target length"
      else .error "AssertionError: source length"
    else .error "AssertionError: target vocab"
  else .error "AssertionError: source vocab"

/-- Decode a binary character string back to a natural number (most significant
digit first); used to state the round-trip property of the target encoding. -/
def parseBin (l : List Char) : Nat :=
  l.foldl (fun acc c => 2 * acc + (if c = '1' then 1 else 0)) 0

end NaturalModel

namespace LinClass

/-- The Dataset helper from linear_classifier.py: it owns an input array, an
output array and a fixed batch size.  Arrays are modelled as lists of rows. -/
structure Dataset (α β : Type) where
  input_set : List α
  output_set : List β
  batch_size : Nat

/-- num_batches = input rows / batch_size; the file is python 2, so the integer
division truncates, dropping any trailing remainder rows. -/
def Dataset.num_batches {α β : Type} (d : Dataset α β) : Nat :=
  d.input_set.length / d.batch_size

/-- input_batch: the row slice [index * batch_size, (index + 1) * batch_size) of
the input array; python slicing clamps at the end of the array and never
raises, which `drop`/`take` model exactly. -/
def Dataset.input_batch {α β : Type} (d : Dataset α β) (index : Nat) : List α :=
  (d.input_set.drop (index * d.batch_size)).take d.batch_size

/-- output_batch: the same slice of the output array. -/
def Dataset.output_batch {α β : Type} (d : Dataset α β) (index : Nat) : List β :=
  (d.output_set.drop (index * d.batch_size)).take d.batch_size

/-- y_calculated = T.dot(x, W) + b from LinearClassifier.__init__: the logit of
batch row `i` and category `j`. -/
noncomputable def y_calculated {B D C : Nat} (x : Fin B → Fin D → ℝ)
    (W : Fin D → Fin C → ℝ) (b : Fin C → ℝ) (i : Fin B) (j : Fin C) : ℝ :=
  (∑ e, x i e * W e j) + b j

/-- y_prob = T.nnet.softmax(y_calculated): the row-wise softmax probability.
(theano stabilizes the computation by subtracting the row maximum before
exponentiating, which leaves the real-valued result unchanged.) -/
noncomputable def y_prob {B D C : Nat} (x : Fin B → Fin D → ℝ)
    (W : Fin D → Fin C → ℝ) (b : Fin C → ℝ) (i : Fin B) (j : Fin C) : ℝ :=
  Real.exp (y_calculated x W b i j) / ∑ k, Real.exp (y_calculated x W b i k)

/-- negative_log_likelihood: minus the mean over the batch of the log
probability assigned to each row's target category. -/
noncomputable def negative_log_likelihood {B D C : Nat} (x : Fin B → Fin D → ℝ)
    (W : Fin D → Fin C → ℝ) (b : Fin C → ℝ) (target : Fin B → Fin C) : ℝ :=
  -((∑ i, Real.log (y_prob x W b i (target i))) / (B : ℝ))

/-- The weight matrix with entry (d, j) replaced by `t`; used to express the
partial derivative of the loss with respect to that single entry. -/
def updateW {D C : Nat} (W : Fin D → Fin C → ℝ) (d : Fin D) (j : Fin C)
    (t : ℝ) : Fin D → Fin C → ℝ :=
  fun e k => if e = d ∧ k = j then t else W e k

/-- The bias vector with entry `j` replaced by `t`. -/
def updateB {C : Nat} (b : Fin C → ℝ) (j : Fin C) (t : ℝ) : Fin C → ℝ :=
  fun k => if k = j then t else b k

/-- W_gradient = T.grad(cost, wrt=classifier.W): automatic differentiation
computes the exact partial derivative of the loss in each entry of W, modelled
as the mathematical derivative of the loss along that coordinate. -/
noncomputable def W_gradient {B D C : Nat} (x : Fin B → Fin D → ℝ)
    (W : Fin D → Fin C → ℝ) (b : Fin C → ℝ) (target : Fin B → Fin C)
    (d : Fin D) (j : Fin C) : ℝ :=
  deriv (fun t => negative_log_likelihood x (updateW W d j t) b target) (W d j)

/-- b_gradient = T.grad(cost, wrt=classifier.b). -/
noncomputable def b_gradient {B D C : Nat} (x : Fin B → Fin D → ℝ)
    (W : Fin D → Fin C → ℝ) (b : Fin C → ℝ) (target : Fin B → Fin C)
    (j : Fin C) : ℝ :=
  deriv (fun t => negative_log_likelihood x W (updateB b j t) target) (b j)

/-- The compiled train function's updates on one batch:
W ← W - learning_rate * W_gradient, b ← b - learning_rate * b_gradient. -/
noncomputable def train {B D C : Nat} (lr : ℝ) (x : Fin B → Fin D → ℝ)
    (W : Fin D → Fin C → ℝ) (b : Fin C → ℝ) (target : Fin B → Fin C) :
    (Fin D → Fin C → ℝ) × (Fin C → ℝ) :=
  (fun d j => W d j - lr * W_gradient x W b target d j,
   fun j => b j - lr * b_gradient x W b target j)

/-- one_hot(t) as a row vector: 1 at the target category, 0 elsewhere. -/
def one_hot {C : Nat} (t j : Fin C) : ℝ := if t = j then 1 else 0

/-- Modelled from the spec: the closed-form softmax-cross-entropy update for W,
`W ← W - lr * xᵗ(softmax(x·W + b) - one_hot(target)) / B`, stated entrywise:
entry (d, j) of `xᵗ(softmax - one_hot)` is `∑ i, x i d * (softmax i j - one_hot i j)`. -/
noncomputable def spec_W_update {B D C : Nat} (lr : ℝ) (x : Fin B → Fin D → ℝ)
    (W : Fin D → Fin C → ℝ) (b : Fin C → ℝ) (target : Fin B → Fin C) :
    Fin D → Fin C → ℝ :=
  fun d j =>
    W d j - lr * ((∑ i, x i d * (y_prob x W b i j - one_hot (target i) j)) / (B : ℝ))

/-- Modelled from the spec: the closed-form update for b,
`b ← b - lr * column_mean(softmax(x·W + b) - one_hot(target))`. -/
noncomputable def spec_b_update {B D C : Nat} (lr : ℝ) (x : Fin B → Fin D → ℝ)
    (W : Fin D → Fin C → ℝ) (b : Fin C → ℝ) (target : Fin B → Fin C) :
    Fin C → ℝ :=
  fun j => b j - lr * ((∑ i, (y_prob x W b i j - one_hot (target i) j)) / (B : ℝ))

/-- The learned parameters of a LinearClassifier instance. -/
structure LinearClassifier (D C : Nat) where
  W : Fin D → Fin C → ℝ
  b : Fin C → ℝ

/-- T.argmax over a category row: the first index attaining the maximum (ties
broken toward the smaller index), as a left fold with a strict comparison. -/
noncomputable def argmax {C : Nat} (f : Fin C → ℝ) (hC : 0 < C) : Fin C :=
  (List.finRange C).foldl (fun best j => if f best < f j then j else best) ⟨0, hC⟩

/-- predictions = T.argmax(y_prob, axis=1) for a classifier instance. -/
noncomputable def predictions {B D C : Nat} (hC : 0 < C)
    (cl : LinearClassifier D C) (x : Fin B → Fin D → ℝ) (i : Fin B) : Fin C :=
  argmax (fun j => y_prob x cl.W cl.b i j) hC

/-- batch_error_rate = T.mean(T.neq(target, predictions)): the fraction of rows
of the batch whose predicted category differs from the target. -/
noncomputable def batch_error_rate {B D C : Nat} (hC : 0 < C)
    (cl : LinearClassifier D C) (x : Fin B → Fin D → ℝ)
    (target : Fin B → Fin C) : ℝ :=
  (∑ i, if target i = predictions hC cl x i then (0 : ℝ) else 1) / (B : ℝ)

/-- The per-index value of the function compiled by batch_error_rate_function:
the batch error rate of classifier `cl` on batch `index` of the dataset, whose
rows are vectors in `Fin D → ℝ` and whose labels are categories in `Fin C`.
The two slices have equal length whenever the dataset's arrays do; `getD`
supplies a default label merely to type the target as a function of the row
index. -/
noncomputable def batch_error_rate_at {D C : Nat} (hC : 0 < C)
    (cl : LinearClassifier D C) (ds : Dataset (Fin D → ℝ) (Fin C))
    (index : Nat) : ℝ :=
  let rows := ds.input_batch index
  let labels := ds.output_batch index
  batch_error_rate hC cl (fun i : Fin rows.length => rows.get i)
    (fun i => labels.getD i.val ⟨0, hC⟩)

/-- The message python raises when a global name is unbound. -/
def NameErrorMsg : String := "NameError: global name classifier is not defined"

/-- batch_error_rate_function from the source compiles a function of the batch
index whose outputs expression is `classifier.batch_error_rate(y)`: it
references the module-level global name `classifier`, not `self`.  The module
global environment is modelled as an optional binding; referencing it while
unbound raises NameError. -/
noncomputable def batch_error_rate_function {D C : Nat}
    (globalClassifier : Option (LinearClassifier D C))
    (self : LinearClassifier D C) (hC : 0 < C)
    (ds : Dataset (Fin D → ℝ) (Fin C)) : Except String (Nat → ℝ) :=
  match globalClassifier with
  | none => .error NameErrorMsg
  | some g => .ok fun index => batch_error_rate_at hC g ds index

/-- numpy.mean of a list of reals: sum divided by length. -/
noncomputable def listMean (l : List ℝ) : ℝ := l.sum / l.length

/-- error_rate_function from the source: compile the per-batch function `f` on
the dataset and return numpy.mean(map(f, range(num_batches))). -/
noncomputable def error_rate_function {D C : Nat}
    (globalClassifier : Option (LinearClassifier D C))
    (self : LinearClassifier D C) (hC : 0 < C)
    (ds : Dataset (Fin D → ℝ) (Fin C)) : Except String ℝ :=
  match batch_error_rate_function globalClassifier self hC ds with
  | .error e => .error e
  | .ok f => .ok (listMean ((List.range ds.num_batches).map f))

/-- runs = 100 in the __main__ driver. -/
def runs : Nat := 100

/-- The (epoch, batch index) pairs on which the __main__ driver calls train, in
call order: for run in range(runs): for batch_index in range(num_batches). -/
def mainTrainingCalls (numBatches : Nat) : List (Nat × Nat) :=
  (List.range runs).flatMap fun run => (List.range numBatches).map fun i => (run, i)

/-- The epochs after which the driver prints the validation error rate:
those run indices with run % 10 == 9. -/
def validationReportRuns : List Nat :=
  (List.range runs).filter fun run => run % 10 == 9

/-- A concrete two-batch dataset over Nat rows, used as a witness input. -/
def exDataset : Dataset Nat Nat :=
  { input_set := [0, 1, 2, 3, 4], output_set := [9, 8, 7, 6, 5], batch_size := 2 }

/-- A concrete classifier with one input dimension and one category, all
parameters zero, used as a witness input. -/
noncomputable def exClassifier : LinearClassifier 1 1 :=
  { W := fun _ _ => 0, b := fun _ => 0 }

/-- A concrete dataset of real rows and one-category labels, used as a witness
input. -/
noncomputable def exRealDataset : Dataset (Fin 1 → ℝ) (Fin 1) :=
  { input_set := [fun _ => 0, fun _ => 1], output_set := [0, 0], batch_size := 1 }

end LinClass

namespace NaturalModel

/-- Every character the binary rendering produces is a binary digit. -/
lemma mem_binDigitsFuel : ∀ fuel n {c : Char}, c ∈ binDigitsFuel fuel n →
    c = '1' ∨ c = '0' := by
  intro fuel
  induction fuel with
  | zero => intro n c h; simp [binDigitsFuel] at h
  | succ fuel ih =>
    intro n c h
    by_cases h2 : n < 2
    · simp only [binDigitsFuel, if_pos h2, List.mem_singleton] at h
      subst h
      by_cases h1 : n = 1
      · exact Or.inl (by rw [if_pos h1])
      · exact Or.inr (by rw [if_neg h1])
    · simp only [binDigitsFuel, if_neg h2, List.mem_append, List.mem_singleton] at h
      rcases h with h | h
      · exact ih _ h
      · subst h
        by_cases hm : n % 2 = 1
        · exact Or.inl (by rw [if_pos hm])
        · exact Or.inr (by rw [if_neg hm])

/-- Decoding a string with one extra digit appended. -/
lemma parseBin_snoc (l : List Char) (c : Char) :
    parseBin (l ++ [c]) = 2 * parseBin l + (if c = '1' then 1 else 0) := by
  simp [parseBin, List.foldl_append]

/-- The binary rendering round-trips through decoding, for any sufficient fuel. -/
lemma parseBin_binDigitsFuel : ∀ fuel n, n < fuel →
    parseBin (binDigitsFuel fuel n) = n := by
  intro fuel
  induction fuel with
  | zero => intro n h; omega
  | succ fuel ih =>
    intro n h
    by_cases h2 : n < 2
    · simp only [binDigitsFuel, if_pos h2]
      by_cases h1 : n = 1
      · simp [parseBin, h1]
      · have h0 : n = 0 := by omega
        simp [parseBin, h0]
    · simp only [binDigitsFuel, if_neg h2]
      rw [parseBin_snoc, ih (n / 2) (by omega)]
      by_cases hm : n % 2 = 1
      · rw [if_pos hm, if_pos rfl]
        omega
      · rw [if_neg hm, if_neg (by decide)]
        omega

/-- The binary rendering of a positive number below `2 ^ k` has at most `k`
digits. -/
lemma length_binDigitsFuel_le : ∀ fuel n k, n < fuel → 0 < n → n < 2 ^ k →
    (binDigitsFuel fuel n).length ≤ k := by
  intro fuel
  induction fuel with
  | zero => intro n k h; omega
  | succ fuel ih =>
    intro n k h hn hk
    by_cases h2 : n < 2
    · have hkpos : k ≠ 0 := by
        rintro rfl
        simp only [pow_zero] at hk
        omega
      simp only [binDigitsFuel, if_pos h2, List.length_singleton]
      omega
    · have hkpos : k ≠ 0 := by
        rintro rfl
        simp only [pow_zero] at hk
        omega
      obtain ⟨m, rfl⟩ : ∃ m, k = m + 1 := ⟨k - 1, by omega⟩
      simp only [binDigitsFuel, if_neg h2, List.length_append, List.length_singleton]
      have hrec : (binDigitsFuel fuel (n / 2)).length ≤ m := by
        apply ih (n / 2) m (by omega) (by omega)
        rw [Nat.div_lt_iff_lt_mul (by norm_num)]
        calc n < 2 ^ (m + 1) := hk
          _ = 2 ^ m * 2 := by ring
      omega

/-- Once the string is longer than the bound, the padding loop does nothing. -/
lemma padFuel_of_lt : ∀ fuel bound (s : List Char), bound < s.length →
    padFuel fuel bound s = s := by
  intro fuel bound s h
  cases fuel with
  | zero => rfl
  | succ fuel =>
    have hn : ¬ (s.length ≤ bound) := by omega
    simp only [padFuel, if_neg hn]

/-- With enough fuel, the padding loop appends spaces until the length first
exceeds the bound: the result is the input followed by `bound + 1 - length`
spaces. -/
lemma padFuel_append : ∀ fuel bound (s : List Char), s.length ≤ bound →
    bound < s.length + fuel →
    padFuel fuel bound s = s ++ List.replicate (bound + 1 - s.length) ' ' := by
  intro fuel
  induction fuel with
  | zero => intro bound s h1 h2; omega
  | succ fuel ih =>
    intro bound s h1 h2
    simp only [padFuel, if_pos h1]
    by_cases h3 : s.length + 1 ≤ bound
    · rw [ih bound (s ++ [' ']) (by simp only [List.length_append, List.length_singleton]; omega)
        (by simp only [List.length_append, List.length_singleton]; omega)]
      rw [List.append_assoc]
      congr 1
      simp only [List.length_append, List.length_singleton]
      have ha : bound + 1 - (s.length + 1) = bound - s.length := by omega
      have hb : bound + 1 - s.length = (bound - s.length) + 1 := by omega
      rw [ha, hb, List.replicate_succ]
      rfl
    · have hlen : s.length = bound := by omega
      rw [padFuel_of_lt fuel bound (s ++ [' '])
        (by simp only [List.length_append, List.length_singleton]; omega)]
      have hc : bound + 1 - s.length = 1 := by omega
      rw [hc]
      rfl

/-- The padding functions append spaces up to one past the bound. -/
lemma pad_append {bound : Nat} {s : List Char} (h : s.length ≤ bound) :
    pad bound s = s ++ List.replicate (bound + 1 - s.length) ' ' :=
  padFuel_append (bound + 1) bound s h (by omega)

/-- A string no longer than the bound is padded to length `bound + 1` — one more
than the bound, because the loop runs while the length is still equal to it. -/
lemma pad_length {bound : Nat} {s : List Char} (h : s.length ≤ bound) :
    (pad bound s).length = bound + 1 := by
  rw [pad_append h]
  simp only [List.length_append, List.length_replicate]
  omega

/-- SOURCE_LEN evaluates to 15. -/
lemma SOURCE_LEN_eq : SOURCE_LEN = 15 := by decide

/-- TARGET_LEN evaluates to 14. -/
lemma TARGET_LEN_eq : TARGET_LEN = 14 := by decide

/-- Operands up to 127 render in at most seven binary digits. -/
lemma binDigits_length_le_seven {a : Nat} (h0 : 0 < a) (h : a ≤ 127) :
    (binDigits a).length ≤ 7 :=
  length_binDigitsFuel_le (a + 1) a 7 (by omega) h0 (lt_of_le_of_lt h (by norm_num))

/-- Products up to 16129 render in at most fourteen binary digits. -/
lemma binDigits_length_le_fourteen {c : Nat} (h0 : 0 < c) (h : c ≤ 16129) :
    (binDigits c).length ≤ 14 :=
  length_binDigitsFuel_le (c + 1) c 14 (by omega) h0 (lt_of_le_of_lt h (by norm_num))

/-- The unpadded source has length twice the rendering of `a` plus one. -/
lemma sourceRaw_length (a b : Nat) :
    (sourceRaw a b).length = 2 * (binDigits a).length + 1 := by
  simp only [sourceRaw, List.length_append, List.length_cons]
  omega

/-- Every character of the padded source lies in SOURCE_VOCAB. -/
lemma source_pad_vocab {a b : Nat} (h : (sourceRaw a b).length ≤ SOURCE_LEN) :
    ((source_pad (sourceRaw a b)).all fun ch => SOURCE_VOCAB.contains ch) = true := by
  rw [List.all_eq_true]
  intro ch hch
  simp only [source_pad] at hch
  rw [pad_append h, List.mem_append] at hch
  rcases hch with hch | hch
  · simp only [sourceRaw, List.mem_append, List.mem_cons] at hch
    rcases hch with h1 | h1 | h1
    · rcases mem_binDigitsFuel _ _ h1 with rfl | rfl <;> decide
    · subst h1; decide
    · rcases mem_binDigitsFuel _ _ h1 with rfl | rfl <;> decide
  · rw [List.eq_of_mem_replicate hch]
    decide

/-- Every character of the padded target lies in TARGET_VOCAB. -/
lemma target_pad_vocab {a b : Nat} (h : (targetRaw a b).length ≤ TARGET_LEN) :
    ((target_pad (targetRaw a b)).all fun ch => TARGET_VOCAB.contains ch) = true := by
  rw [List.all_eq_true]
  intro ch hch
  simp only [target_pad] at hch
  rw [pad_append h, List.mem_append] at hch
  rcases hch with hch | hch
  · rcases mem_binDigitsFuel _ _ hch with rfl | rfl <;> decide
  · rw [List.eq_of_mem_replicate hch]
    decide

/-- Claim C9: for every draw of a, b in [1, 127], the padding loops (which run
while the length is at most the fixed constant) produce a source of length
SOURCE_LEN + 1 = 16 and a target of length TARGET_LEN + 1 = 15, so the
assertion len(source) == SOURCE_LEN inside generate() fails on every call and
generate() always raises an assertion error. -/
theorem generate_always_asserts (a b : Nat) (ha1 : 1 ≤ a) (ha2 : a ≤ 127)
    (hb1 : 1 ≤ b) (hb2 : b ≤ 127) :
    (source_pad (sourceRaw a b)).length = SOURCE_LEN + 1 ∧
    (target_pad (targetRaw a b)).length = TARGET_LEN + 1 ∧
    generate a b = .error "AssertionError: source length" := by
  have hsle : (sourceRaw a b).length ≤ SOURCE_LEN := by
    rw [sourceRaw_length, SOURCE_LEN_eq]
    have := binDigits_length_le_seven (by omega) ha2
    omega
  have htle : (targetRaw a b).length ≤ TARGET_LEN := by
    rw [TARGET_LEN_eq]
    exact binDigits_length_le_fourteen (Nat.mul_pos (by omega) (by omega))
      (le_trans (Nat.mul_le_mul ha2 hb2) (by norm_num))
  have hslen : (source_pad (sourceRaw a b)).length = SOURCE_LEN + 1 := pad_length hsle
  have htlen : (target_pad (targetRaw a b)).length = TARGET_LEN + 1 := pad_length htle
  refine ⟨hslen, htlen, ?_⟩
  simp only [generate]
  rw [if_pos (source_pad_vocab hsle), if_pos (target_pad_vocab htle),
    if_neg (by rw [hslen]; omega)]

/-- Witness for C9 at the concrete draw a = 2, b = 3. -/
theorem generate_always_asserts_witness :
    (1 ≤ 2 ∧ 2 ≤ 127 ∧ 1 ≤ 3 ∧ 3 ≤ 127) ∧
    ((source_pad (sourceRaw 2 3)).length = SOURCE_LEN + 1 ∧
      (target_pad (targetRaw 2 3)).length = TARGET_LEN + 1 ∧
      generate 2 3 = .error "AssertionError: source length") :=
  ⟨⟨by decide, by decide, by decide, by decide⟩,
    generate_always_asserts 2 3 (by decide) (by decide) (by decide) (by decide)⟩

/-- Claim C3 (code bug, evaluated at the failing input a = 1, b = 2): the format
string in generate() indexes argument 0 twice, so the unpadded source is
binary(a), star, binary(a) — here "1*1" — and not binary(a), star, binary(b) as
the claim states; the source does not depend on b at all, while the target is
binary(a * b) = "10". -/
theorem sourceRaw_ignores_second_operand :
    sourceRaw 1 2 = ['1', '*', '1'] ∧
    sourceRaw 1 2 ≠ binDigits 1 ++ '*' :: binDigits 2 ∧
    sourceRaw 1 2 = sourceRaw 1 99 ∧
    targetRaw 1 2 = ['1', '0'] := by decide

/-- Claim C4 (code bug, evaluated at the failing input a = 1, b = 1): the
characters of both padded strings do lie in the declared alphabets, and
SOURCE_LEN = 15 and TARGET_LEN = 14 as the claim computes, but the padded
lengths are 16 and 15 — one more than the claim states — so the length
assertion inside generate() fails. -/
theorem generate_length_assert_violation :
    ((source_pad (sourceRaw 1 1)).all fun ch => SOURCE_VOCAB.contains ch) = true ∧
    ((target_pad (targetRaw 1 1)).all fun ch => TARGET_VOCAB.contains ch) = true ∧
    (source_pad (sourceRaw 1 1)).length = 16 ∧ SOURCE_LEN = 15 ∧
    (target_pad (targetRaw 1 1)).length = 15 ∧ TARGET_LEN = 14 ∧
    generate 1 1 = .error "AssertionError: source length" :=
  ⟨by decide, by decide, by decide, by decide, by decide, by decide, rfl⟩

/-- Claim C5: for every draw of a, b in [1, 127], decoding the unpadded binary
target string built by generate() yields exactly a * b. -/
theorem target_roundtrip (a b : Nat) (ha1 : 1 ≤ a) (ha2 : a ≤ 127)
    (hb1 : 1 ≤ b) (hb2 : b ≤ 127) :
    parseBin (targetRaw a b) = a * b :=
  parseBin_binDigitsFuel (a * b + 1) (a * b) (by omega)

/-- Witness for C5 at the boundary pair a = b = 127, whose product is 16129. -/
theorem target_roundtrip_witness :
    (1 ≤ 127 ∧ 127 ≤ 127) ∧ parseBin (targetRaw 127 127) = 127 * 127 :=
  ⟨⟨by decide, by decide⟩,
    target_roundtrip 127 127 (by decide) (by decide) (by decide) (by decide)⟩

end NaturalModel

namespace LinClass

/-- Concatenating the first `n` fixed-size slices of a list yields its first
`Bsz * n` elements. -/
lemma range_flatMap_slices {α : Type} (l : List α) (Bsz : Nat) :
    ∀ n, (List.range n).flatMap (fun i => (l.drop (i * Bsz)).take Bsz)
      = l.take (Bsz * n) := by
  intro n
  induction n with
  | zero => simp
  | succ n ih =>
    rw [List.range_succ, List.flatMap_append, ih]
    simp only [List.flatMap_cons, List.flatMap_nil, List.append_nil]
    rw [Nat.mul_succ, List.take_add, Nat.mul_comm n Bsz]

/-- An in-range batch index leaves room for a full batch. -/
lemma in_range_batch_mul_le {N Bsz i : Nat} (hi : i < N / Bsz) :
    (i + 1) * Bsz ≤ N := by
  have h1 : i + 1 ≤ N / Bsz := hi
  calc (i + 1) * Bsz ≤ (N / Bsz) * Bsz := Nat.mul_le_mul_right Bsz h1
    _ ≤ N := Nat.div_mul_le_self N Bsz

/-- Claim C2: with batch size B at most the number of rows N, the dataset
exposes num_batches = N div B; every in-range batch is exactly the half-open
row slice [i * B, (i + 1) * B) of the corresponding array, of size exactly B;
and the concatenation of all batches in index order covers exactly the first
B * num_batches rows. -/
theorem dataset_batching_correct {α β : Type} (d : Dataset α β) (i j : Nat)
    (hB : 0 < d.batch_size) (hBN : d.batch_size ≤ d.input_set.length)
    (hout : d.output_set.length = d.input_set.length)
    (hi : i < d.num_batches) (hj : j < d.batch_size) :
    d.num_batches = d.input_set.length / d.batch_size ∧
    (d.input_batch i).length = d.batch_size ∧
    (d.output_batch i).length = d.batch_size ∧
    (d.input_batch i)[j]? = d.input_set[i * d.batch_size + j]? ∧
    (d.output_batch i)[j]? = d.output_set[i * d.batch_size + j]? ∧
    (List.range d.num_batches).flatMap d.input_batch
      = d.input_set.take (d.batch_size * d.num_batches) ∧
    (List.range d.num_batches).flatMap d.output_batch
      = d.output_set.take (d.batch_size * d.num_batches) ∧
    d.batch_size * d.num_batches ≤ d.input_set.length := by
  have hmul : (i + 1) * d.batch_size ≤ d.input_set.length := in_range_batch_mul_le hi
  have hsplit : (i + 1) * d.batch_size = i * d.batch_size + d.batch_size := by ring
  have hmul' : i * d.batch_size + d.batch_size ≤ d.input_set.length := by omega
  refine ⟨rfl, ?_, ?_, ?_, ?_, ?_, ?_, ?_⟩
  · simp only [Dataset.input_batch, List.length_take, List.length_drop]
    omega
  · simp only [Dataset.output_batch, List.length_take, List.length_drop]
    omega
  · simp only [Dataset.input_batch]
    rw [List.getElem?_take, if_pos hj, List.getElem?_drop]
  · simp only [Dataset.output_batch]
    rw [List.getElem?_take, if_pos hj, List.getElem?_drop]
  · exact range_flatMap_slices d.input_set d.batch_size d.num_batches
  · exact range_flatMap_slices d.output_set d.batch_size d.num_batches
  · rw [Nat.mul_comm]
    exact Nat.div_mul_le_self _ _

/-- Witness for C2 on a concrete five-row dataset with batch size two, at
batch index 1 and row offset 1. -/
theorem dataset_batching_correct_witness :
    (0 < exDataset.batch_size ∧ exDataset.batch_size ≤ exDataset.input_set.length ∧
      exDataset.output_set.length = exDataset.input_set.length ∧
      1 < exDataset.num_batches ∧ 1 < exDataset.batch_size) ∧
    (exDataset.num_batches = exDataset.input_set.length / exDataset.batch_size ∧
      (exDataset.input_batch 1).length = exDataset.batch_size ∧
      (exDataset.output_batch 1).length = exDataset.batch_size ∧
      (exDataset.input_batch 1)[1]? = exDataset.input_set[1 * exDataset.batch_size + 1]? ∧
      (exDataset.output_batch 1)[1]? = exDataset.output_set[1 * exDataset.batch_size + 1]? ∧
      (List.range exDataset.num_batches).flatMap exDataset.input_batch
        = exDataset.input_set.take (exDataset.batch_size * exDataset.num_batches) ∧
      (List.range exDataset.num_batches).flatMap exDataset.output_batch
        = exDataset.output_set.take (exDataset.batch_size * exDataset.num_batches) ∧
      exDataset.batch_size * exDataset.num_batches ≤ exDataset.input_set.length) :=
  ⟨⟨by decide, by decide, by decide, by decide, by decide⟩,
    dataset_batching_correct exDataset 1 1 (by decide) (by decide) (by decide)
      (by decide) (by decide)⟩

/-- Claim C8: the batch accessors validate nothing: for every index the result
is the clamped slice (length min(B, N - i * B), computed without any error),
and for every index at or beyond num_batches the slice holds fewer than
batch_size rows. -/
theorem batch_slicing_unchecked {α β : Type} (d : Dataset α β) (i i' : Nat)
    (hB : 0 < d.batch_size) (hout : d.output_set.length = d.input_set.length)
    (hi' : d.num_batches ≤ i') :
    (d.input_batch i).length
      = min d.batch_size (d.input_set.length - i * d.batch_size) ∧
    (d.output_batch i).length
      = min d.batch_size (d.output_set.length - i * d.batch_size) ∧
    (d.input_batch i').length < d.batch_size ∧
    (d.output_batch i').length < d.batch_size := by
  have hlt : d.input_set.length < i' * d.batch_size + d.batch_size := by
    have h1 : d.input_set.length / d.batch_size < i' + 1 := by
      have : d.num_batches = d.input_set.length / d.batch_size := rfl
      omega
    have h2 := (Nat.div_lt_iff_lt_mul hB).mp h1
    have h3 : (i' + 1) * d.batch_size = i' * d.batch_size + d.batch_size := by ring
    omega
  refine ⟨?_, ?_, ?_, ?_⟩
  · simp only [Dataset.input_batch, List.length_take, List.length_drop]
  · simp only [Dataset.output_batch, List.length_take, List.length_drop]
  · simp only [Dataset.input_batch, List.length_take, List.length_drop]
    omega
  · simp only [Dataset.output_batch, List.length_take, List.length_drop]
    omega

/-- Witness for C8 on the concrete dataset, at in-range index 0 and
out-of-range index 5. -/
theorem batch_slicing_unchecked_witness :
    (0 < exDataset.batch_size ∧
      exDataset.output_set.length = exDataset.input_set.length ∧
      exDataset.num_batches ≤ 5) ∧
    ((exDataset.input_batch 0).length
        = min exDataset.batch_size (exDataset.input_set.length - 0 * exDataset.batch_size) ∧
      (exDataset.output_batch 0).length
        = min exDataset.batch_size (exDataset.output_set.length - 0 * exDataset.batch_size) ∧
      (exDataset.input_batch 5).length < exDataset.batch_size ∧
      (exDataset.output_batch 5).length < exDataset.batch_size) :=
  ⟨⟨by decide, by decide, by decide⟩,
    batch_slicing_unchecked exDataset 0 5 (by decide) (by decide) (by decide)⟩

/-- Filtering one epoch's block of (epoch, batch) pairs by an epoch index keeps
everything or nothing. -/
lemma filter_block (r run : Nat) (l : List Nat) :
    ((l.map fun i => (r, i)).filter fun p => p.1 == run)
      = if r = run then l.map fun i => (r, i) else [] := by
  induction l with
  | nil => simp
  | cons a l ih =>
    by_cases hr : r = run
    · subst hr
      simp [List.filter_cons, ih]
    · simp [List.filter_cons, ih, hr]

/-- A flatMap of blocks that all vanish is empty. -/
lemma flatMap_if_nil (g : Nat → List (Nat × Nat)) (run : Nat) :
    ∀ l : List Nat, (∀ r ∈ l, r ≠ run) →
      (l.flatMap fun r => if r = run then g r else []) = [] := by
  intro l
  induction l with
  | nil => intro _; rfl
  | cons a l ih =>
    intro h
    rw [List.flatMap_cons, if_neg (h a (List.mem_cons_self a l)), List.nil_append]
    exact ih fun r hr => h r (List.mem_cons_of_mem a hr)

/-- A flatMap whose blocks vanish except at one in-range index collapses to
that block. -/
lemma flatMap_if_single (g : Nat → List (Nat × Nat)) (run : Nat) :
    ∀ m, run < m →
      ((List.range m).flatMap fun r => if r = run then g r else []) = g run := by
  intro m
  induction m with
  | zero => intro h; exact absurd h (Nat.not_lt_zero run)
  | succ m ih =>
    intro h
    rw [List.range_succ, List.flatMap_append]
    simp only [List.flatMap_cons, List.flatMap_nil, List.append_nil]
    by_cases hm : run < m
    · rw [ih hm, if_neg (by omega)]
      simp
    · have heq : m = run := by omega
      subst heq
      have hnil : ((List.range m).flatMap fun r => if r = m then g r else []) = [] :=
        flatMap_if_nil g m (List.range m) fun r hr => by
          rw [List.mem_range] at hr
          omega
      rw [hnil, if_pos rfl]
      simp

end LinClass

namespace LinClass

/-- Within one epoch, the driver's training calls whose epoch index is `run`
are exactly the batches 0..numBatches-1, in increasing order. -/
lemma filter_mainTrainingCalls (n run : Nat) (hrun : run < runs) :
    ((mainTrainingCalls n).filter fun p => p.1 == run)
      = (List.range n).map fun i => (run, i) := by
  rw [mainTrainingCalls, List.filter_flatMap]
  have h1 : ∀ r : Nat, (((List.range n).map fun i => (r, i)).filter fun p => p.1 == run)
      = if r = run then (List.range n).map fun i => (r, i) else [] :=
    fun r => filter_block r run (List.range n)
  simp only [h1]
  exact flatMap_if_single (fun r => (List.range n).map fun i => (r, i)) run runs hrun

/-- The sum of a list built by mapping over an initial segment equals the
corresponding finite sum. -/
lemma sum_map_range (f : Nat → ℝ) : ∀ n, ((List.range n).map f).sum = ∑ i ∈ Finset.range n, f i := by
  intro n
  induction n with
  | zero => simp
  | succ n ih =>
    rw [List.range_succ, List.map_append, List.sum_append, ih, Finset.sum_range_succ]
    simp

/-- numpy.mean over the mapped batch indices is the arithmetic mean of the
per-batch values. -/
lemma listMean_range_map (f : Nat → ℝ) (n : Nat) :
    listMean ((List.range n).map f) = (∑ i ∈ Finset.range n, f i) / (n : ℝ) := by
  rw [listMean, sum_map_range]
  simp

/-- Claim C7: the driver runs 100 epochs; within each epoch it visits the batch
indices 0..num_batches-1 in increasing order with no shuffling and exactly one
train call per batch; it never touches a batch index at or beyond num_batches;
it reports validation error exactly after epochs 9, 19, ..., 99 (every tenth
epoch); and the reported error (validation and final test alike) is
numpy.mean over the per-batch error rates of all of the dataset's batches. -/
theorem training_driver_schedule {D C : Nat} (n run : Nat) (p : Nat × Nat)
    (f : Nat → ℝ) (g self : LinearClassifier D C) (hC : 0 < C)
    (ds : Dataset (Fin D → ℝ) (Fin C)) (hrun : run < runs)
    (hp : p ∈ mainTrainingCalls n) :
    ((mainTrainingCalls n).filter fun q => q.1 == run).map Prod.snd = List.range n ∧
    validationReportRuns = [9, 19, 29, 39, 49, 59, 69, 79, 89, 99] ∧
    p.2 < n ∧ p.1 < runs ∧
    listMean ((List.range n).map f) = (∑ i ∈ Finset.range n, f i) / (n : ℝ) ∧
    error_rate_function (some g) self hC ds
      = .ok (listMean ((List.range ds.num_batches).map
          fun index => batch_error_rate_at hC g ds index)) := by
  obtain ⟨hp1, hp2⟩ : p.1 < runs ∧ p.2 < n := by
    rw [mainTrainingCalls, List.mem_flatMap] at hp
    obtain ⟨r, hr, hmem⟩ := hp
    rw [List.mem_map] at hmem
    obtain ⟨i, hi, rfl⟩ := hmem
    rw [List.mem_range] at hr hi
    exact ⟨hr, hi⟩
  refine ⟨?_, by decide, hp2, hp1, listMean_range_map f n, rfl⟩
  rw [filter_mainTrainingCalls n run hrun, List.map_map]
  simp [Function.comp]

/-- Witness for C7 at epoch 1 with two batches, the concrete training call
(0, 1), the zero per-batch function, and a concrete classifier and dataset. -/
theorem training_driver_schedule_witness :
    (1 < runs ∧ (0, 1) ∈ mainTrainingCalls 2) ∧
    (((mainTrainingCalls 2).filter fun q => q.1 == 1).map Prod.snd = List.range 2 ∧
      validationReportRuns = [9, 19, 29, 39, 49, 59, 69, 79, 89, 99] ∧
      ((0 : Nat), (1 : Nat)).2 < 2 ∧ ((0 : Nat), (1 : Nat)).1 < runs ∧
      listMean ((List.range 2).map fun _ => (0 : ℝ))
        = (∑ i ∈ Finset.range 2, (0 : ℝ)) / ((2 : Nat) : ℝ) ∧
      error_rate_function (some exClassifier) exClassifier Nat.one_pos exRealDataset
        = .ok (listMean ((List.range exRealDataset.num_batches).map
            fun index => batch_error_rate_at Nat.one_pos exClassifier exRealDataset index))) :=
  ⟨⟨by decide, by decide⟩,
    training_driver_schedule 2 1 (0, 1) (fun _ => 0) exClassifier exClassifier
      Nat.one_pos exRealDataset (by decide) (by decide)⟩

/-- Claim C10: the compiled error-rate functions are built from the
module-level global name classifier, not from self: for any instance used as
self the result is the global classifier's error rate, and when the global is
unbound the compilation fails with a NameError. -/
theorem error_rate_uses_global_classifier {D C : Nat}
    (g self self' : LinearClassifier D C) (hC : 0 < C)
    (ds : Dataset (Fin D → ℝ) (Fin C)) :
    batch_error_rate_function (some g) self hC ds
      = batch_error_rate_function (some g) self' hC ds ∧
    batch_error_rate_function (some g) self hC ds
      = .ok (fun index => batch_error_rate_at hC g ds index) ∧
    batch_error_rate_function none self hC ds = .error NameErrorMsg ∧
    error_rate_function (some g) self hC ds = error_rate_function (some g) g hC ds ∧
    error_rate_function none self hC ds = .error NameErrorMsg :=
  ⟨rfl, rfl, rfl, rfl, rfl⟩

/-- Witness for C10 on the concrete classifier and dataset. -/
theorem error_rate_uses_global_classifier_witness :
    0 < 1 ∧
    (batch_error_rate_function (some exClassifier) exClassifier Nat.one_pos exRealDataset
        = batch_error_rate_function (some exClassifier) exClassifier Nat.one_pos exRealDataset ∧
      batch_error_rate_function (some exClassifier) exClassifier Nat.one_pos exRealDataset
        = .ok (fun index => batch_error_rate_at Nat.one_pos exClassifier exRealDataset index) ∧
      batch_error_rate_function none exClassifier Nat.one_pos exRealDataset
        = .error NameErrorMsg ∧
      error_rate_function (some exClassifier) exClassifier Nat.one_pos exRealDataset
        = error_rate_function (some exClassifier) exClassifier Nat.one_pos exRealDataset ∧
      error_rate_function none exClassifier Nat.one_pos exRealDataset
        = .error NameErrorMsg) :=
  ⟨Nat.one_pos,
    error_rate_uses_global_classifier exClassifier exClassifier exClassifier
      Nat.one_pos exRealDataset⟩

/-- Claim C6: the negative-log-likelihood loss is non-negative for every batch,
every parameter pair and every in-range target vector; and in the initial
all-zero parameter state it equals log C for every batch and target. -/
theorem nll_nonneg_and_zero_init {B D C : Nat} (x : Fin B → Fin D → ℝ)
    (W : Fin D → Fin C → ℝ) (bb : Fin C → ℝ) (target : Fin B → Fin C)
    (hB : 0 < B) :
    0 ≤ negative_log_likelihood x W bb target ∧
    negative_log_likelihood x (fun _ _ => 0) (fun _ => 0) target = Real.log C := by
  constructor
  · have hd : ∀ i : Fin B, (0 : ℝ) < ∑ k, Real.exp (y_calculated x W bb i k) :=
      fun i => Finset.sum_pos (fun k _ => Real.exp_pos _) ⟨target i, Finset.mem_univ _⟩
    have hle : ∀ i : Fin B, Real.log (y_prob x W bb i (target i)) ≤ 0 := by
      intro i
      apply Real.log_nonpos
      · exact div_nonneg (Real.exp_pos _).le (hd i).le
      · exact (div_le_one (hd i)).mpr
          (Finset.single_le_sum (fun k _ => (Real.exp_pos _).le) (Finset.mem_univ (target i)))
    have hsum : (∑ i, Real.log (y_prob x W bb i (target i))) ≤ 0 :=
      Finset.sum_nonpos fun i _ => hle i
    have hq : (∑ i, Real.log (y_prob x W bb i (target i))) / (B : ℝ) ≤ 0 :=
      div_nonpos_iff.mpr (Or.inr ⟨hsum, Nat.cast_nonneg B⟩)
    exact neg_nonneg.mpr hq
  · have hz : ∀ (i : Fin B) (j : Fin C),
        y_calculated x (fun _ _ => (0 : ℝ)) (fun _ => (0 : ℝ)) i j = 0 := by
      intro i j
      simp [y_calculated]
    have hp : ∀ (i : Fin B) (j : Fin C),
        y_prob x (fun _ _ => (0 : ℝ)) (fun _ => (0 : ℝ)) i j = 1 / (C : ℝ) := by
      intro i j
      simp [y_prob, hz, Real.exp_zero, Finset.sum_const, Finset.card_univ,
        Fintype.card_fin, nsmul_eq_mul, mul_one]
    have hlog : ∀ i : Fin B,
        Real.log (y_prob x (fun _ _ => (0 : ℝ)) (fun _ => (0 : ℝ)) i (target i))
          = -Real.log (C : ℝ) := by
      intro i
      rw [hp i (target i), one_div, Real.log_inv]
    simp only [negative_log_likelihood]
    rw [Finset.sum_congr rfl fun i _ => hlog i]
    rw [Finset.sum_const, Finset.card_univ, Fintype.card_fin, nsmul_eq_mul]
    have hBne : (B : ℝ) ≠ 0 := Nat.cast_ne_zero.mpr (by omega)
    rw [mul_div_cancel_left₀ _ hBne, neg_neg]

/-- Witness for C6 at the one-row, one-feature, one-category instance with all
inputs zero. -/
theorem nll_nonneg_and_zero_init_witness :
    0 < 1 ∧
    (0 ≤ negative_log_likelihood (fun (_ : Fin 1) (_ : Fin 1) => (0 : ℝ))
        (fun (_ : Fin 1) (_ : Fin 1) => (0 : ℝ)) (fun (_ : Fin 1) => (0 : ℝ))
        (fun (_ : Fin 1) => (0 : Fin 1)) ∧
      negative_log_likelihood (fun (_ : Fin 1) (_ : Fin 1) => (0 : ℝ))
        (fun (_ : Fin 1) (_ : Fin 1) => (0 : ℝ)) (fun (_ : Fin 1) => (0 : ℝ))
        (fun (_ : Fin 1) => (0 : Fin 1)) = Real.log ((1 : Nat) : ℝ)) :=
  ⟨Nat.one_pos,
    nll_nonneg_and_zero_init (fun _ _ => 0) (fun _ _ => 0) (fun _ => 0)
      (fun _ => 0) Nat.one_pos⟩

end LinClass

namespace LinClass

/-- The derivative of the mean negative log softmax likelihood along one
parameter coordinate, for an arbitrary family of logit curves `zf` with
derivatives `z'` at `t0`. -/
lemma hasDerivAt_nllShape {B C : Nat} (target : Fin B → Fin C)
    (zf : Fin B → Fin C → ℝ → ℝ) (z' : Fin B → Fin C → ℝ) (t0 : ℝ)
    (hz : ∀ i k, HasDerivAt (zf i k) (z' i k) t0) :
    HasDerivAt
      (fun t => -((∑ i, Real.log (Real.exp (zf i (target i) t)
        / ∑ k, Real.exp (zf i k t))) / (B : ℝ)))
      (-((∑ i, (z' i (target i)
        - (∑ k, Real.exp (zf i k t0) * z' i k) / ∑ k, Real.exp (zf i k t0))) / (B : ℝ)))
      t0 := by
  have key : ∀ i : Fin B,
      HasDerivAt (fun t => Real.log (Real.exp (zf i (target i) t)
          / ∑ k, Real.exp (zf i k t)))
        (z' i (target i)
          - (∑ k, Real.exp (zf i k t0) * z' i k) / ∑ k, Real.exp (zf i k t0)) t0 := by
    intro i
    have hSpos : ∀ t : ℝ, (0 : ℝ) < ∑ k, Real.exp (zf i k t) :=
      fun t => Finset.sum_pos (fun k _ => Real.exp_pos _) ⟨target i, Finset.mem_univ _⟩
    have hS : HasDerivAt (fun t => ∑ k, Real.exp (zf i k t))
        (∑ k, Real.exp (zf i k t0) * z' i k) t0 :=
      HasDerivAt.sum fun k _ => (hz i k).exp
    have hlog : HasDerivAt (fun t => Real.log (∑ k, Real.exp (zf i k t)))
        ((∑ k, Real.exp (zf i k t0) * z' i k) / ∑ k, Real.exp (zf i k t0)) t0 :=
      hS.log (ne_of_gt (hSpos t0))
    have heq : (fun t => Real.log (Real.exp (zf i (target i) t)
        / ∑ k, Real.exp (zf i k t)))
        = fun t => zf i (target i) t - Real.log (∑ k, Real.exp (zf i k t)) := by
      funext t
      rw [Real.log_div (Real.exp_ne_zero _) (ne_of_gt (hSpos t)), Real.log_exp]
    rw [heq]
    exact (hz i (target i)).sub hlog
  have hsum : HasDerivAt
      (fun t => ∑ i, Real.log (Real.exp (zf i (target i) t) / ∑ k, Real.exp (zf i k t)))
      (∑ i, (z' i (target i)
        - (∑ k, Real.exp (zf i k t0) * z' i k) / ∑ k, Real.exp (zf i k t0))) t0 :=
    HasDerivAt.sum fun i _ => key i
  exact (hsum.div_const (B : ℝ)).neg

/-- Replacing entry (d, j) of W by its own value leaves W unchanged. -/
lemma updateW_self {D C : Nat} (W : Fin D → Fin C → ℝ) (d : Fin D) (j : Fin C) :
    updateW W d j (W d j) = W := by
  funext e k
  simp only [updateW]
  split
  next h => rw [h.1, h.2]
  next => rfl

/-- Replacing entry j of b by its own value leaves b unchanged. -/
lemma updateB_self {C : Nat} (bb : Fin C → ℝ) (j : Fin C) :
    updateB bb j (bb j) = bb := by
  funext k
  simp only [updateB]
  split
  next h => rw [h]
  next => rfl

/-- The logit's derivative in one weight entry: `x i d` on column j, 0 on the
other columns. -/
lemma hasDerivAt_y_calc_W {B D C : Nat} (x : Fin B → Fin D → ℝ)
    (W : Fin D → Fin C → ℝ) (bb : Fin C → ℝ) (d : Fin D) (j : Fin C)
    (i : Fin B) (k : Fin C) :
    HasDerivAt (fun t => y_calculated x (updateW W d j t) bb i k)
      (if k = j then x i d else 0) (W d j) := by
  have h1 : ∀ e : Fin D, HasDerivAt
      (fun t => x i e * (if e = d ∧ k = j then t else W e k))
      (if e = d ∧ k = j then x i e else 0) (W d j) := by
    intro e
    by_cases h : e = d ∧ k = j
    · simp only [if_pos h]
      simpa using (hasDerivAt_id (W d j)).const_mul (x i e)
    · simp only [if_neg h]
      exact hasDerivAt_const _ _
  have h2 : HasDerivAt
      (fun t => (∑ e, x i e * (if e = d ∧ k = j then t else W e k)) + bb k)
      (∑ e, if e = d ∧ k = j then x i e else 0) (W d j) :=
    (HasDerivAt.sum fun e _ => h1 e).add_const (bb k)
  have h3 : (∑ e, if e = d ∧ k = j then x i e else 0)
      = if k = j then x i d else 0 := by
    by_cases hk : k = j
    · simp only [hk, and_true]
      simp [Finset.sum_ite_eq']
    · simp [hk]
  rw [← h3]
  exact h2

/-- The logit's derivative in one bias entry: 1 on column j, 0 elsewhere. -/
lemma hasDerivAt_y_calc_b {B D C : Nat} (x : Fin B → Fin D → ℝ)
    (W : Fin D → Fin C → ℝ) (bb : Fin C → ℝ) (j : Fin C) (i : Fin B) (k : Fin C) :
    HasDerivAt (fun t => y_calculated x W (updateB bb j t) i k)
      (if k = j then (1 : ℝ) else 0) (bb j) := by
  by_cases hk : k = j
  · rw [if_pos hk]
    have heq : (fun t => y_calculated x W (updateB bb j t) i k)
        = fun t => (∑ e, x i e * W e k) + t := by
      funext t
      simp [y_calculated, updateB, hk]
    rw [heq]
    exact (hasDerivAt_id (bb j)).const_add (∑ e, x i e * W e k)
  · rw [if_neg hk]
    have heq : (fun t => y_calculated x W (updateB bb j t) i k)
        = fun t => (∑ e, x i e * W e k) + bb k := by
      funext t
      simp [y_calculated, updateB, hk]
    rw [heq]
    exact hasDerivAt_const _ _

/-- The gradient of the loss in one weight entry has the closed
softmax-cross-entropy form. -/
lemma W_gradient_eq {B D C : Nat} (x : Fin B → Fin D → ℝ)
    (W : Fin D → Fin C → ℝ) (bb : Fin C → ℝ) (target : Fin B → Fin C)
    (d : Fin D) (j : Fin C) :
    W_gradient x W bb target d j
      = (∑ i, x i d * (y_prob x W bb i j - one_hot (target i) j)) / (B : ℝ) := by
  have h := (hasDerivAt_nllShape target
    (fun i k t => y_calculated x (updateW W d j t) bb i k)
    (fun i k => if k = j then x i d else 0) (W d j)
    (fun i k => hasDerivAt_y_calc_W x W bb d j i k)).deriv
  have h2 : W_gradient x W bb target d j
      = -((∑ i, ((if target i = j then x i d else 0)
          - (∑ k, Real.exp (y_calculated x (updateW W d j (W d j)) bb i k)
              * (if k = j then x i d else 0))
            / ∑ k, Real.exp (y_calculated x (updateW W d j (W d j)) bb i k))) / (B : ℝ)) := h
  rw [h2, updateW_self]
  rw [← neg_div, ← Finset.sum_neg_distrib]
  congr 1
  refine Finset.sum_congr rfl fun i _ => ?_
  have hsum : (∑ k, Real.exp (y_calculated x W bb i k) * (if k = j then x i d else 0))
      = Real.exp (y_calculated x W bb i j) * x i d := by
    simp only [mul_ite, mul_zero]
    simp [Finset.sum_ite_eq']
  rw [hsum]
  simp only [y_prob, one_hot]
  by_cases hc : target i = j
  · rw [if_pos hc, if_pos hc]
    ring
  · rw [if_neg hc, if_neg hc]
    ring

/-- The gradient of the loss in one bias entry is the column mean numerator. -/
lemma b_gradient_eq {B D C : Nat} (x : Fin B → Fin D → ℝ)
    (W : Fin D → Fin C → ℝ) (bb : Fin C → ℝ) (target : Fin B → Fin C)
    (j : Fin C) :
    b_gradient x W bb target j
      = (∑ i, (y_prob x W bb i j - one_hot (target i) j)) / (B : ℝ) := by
  have h := (hasDerivAt_nllShape target
    (fun i k t => y_calculated x W (updateB bb j t) i k)
    (fun i k => if k = j then (1 : ℝ) else 0) (bb j)
    (fun i k => hasDerivAt_y_calc_b x W bb j i k)).deriv
  have h2 : b_gradient x W bb target j
      = -((∑ i, ((if target i = j then (1 : ℝ) else 0)
          - (∑ k, Real.exp (y_calculated x W (updateB bb j (bb j)) i k)
              * (if k = j then (1 : ℝ) else 0))
            / ∑ k, Real.exp (y_calculated x W (updateB bb j (bb j)) i k))) / (B : ℝ)) := h
  rw [h2, updateB_self]
  rw [← neg_div, ← Finset.sum_neg_distrib]
  congr 1
  refine Finset.sum_congr rfl fun i _ => ?_
  have hsum : (∑ k, Real.exp (y_calculated x W bb i k) * (if k = j then (1 : ℝ) else 0))
      = Real.exp (y_calculated x W bb i j) := by
    simp only [mul_ite, mul_one, mul_zero]
    simp [Finset.sum_ite_eq']
  rw [hsum]
  simp only [y_prob, one_hot]
  by_cases hc : target i = j
  · rw [if_pos hc]
    ring
  · rw [if_neg hc]
    ring

/-- Claim C1: one step of the compiled train function — gradient descent via
automatic differentiation on the mean negative log likelihood — updates W and b
exactly as the closed-form softmax-cross-entropy rule:
W becomes W - lr * xᵗ(softmax(x·W + b) - one_hot(target)) / B and b becomes
b - lr * column_mean(softmax(x·W + b) - one_hot(target)), for every batch,
every in-range target vector, every learning rate and every current W and b. -/
theorem train_is_closed_form_sgd {B D C : Nat} (lr : ℝ) (x : Fin B → Fin D → ℝ)
    (W : Fin D → Fin C → ℝ) (bb : Fin C → ℝ) (target : Fin B → Fin C) :
    train lr x W bb target
      = (spec_W_update lr x W bb target, spec_b_update lr x W bb target) := by
  simp only [train, spec_W_update, spec_b_update, W_gradient_eq, b_gradient_eq]
  rfl

end LinClass
